import Mathlib

/-!
Shallow embedding of the `simple-std` Rust crate (src/lib.rs): a console
input helper and an xorshift128+ pseudo-random generator with float and
ranged-integer derivations.

Machine integers are modelled as `Nat` (u64/u128, with explicit `% 2^64` /
`% 2^128` where the source wraps) and `Int` (i32). Rust's checked arithmetic
(debug-build semantics, the semantics exercised by the crate's own test
suite) is modelled with `Option`: `none` is an arithmetic fault (panic).
The system clock and standard input are modelled as explicit oracle inputs.
-/

namespace SimpleStd

/-- The two process-wide `AtomicU64` words `STATE0`, `STATE1`
(src/lib.rs lines 127-128). Well-formed values are below `2^64`. -/
structure RngState where
  state0 : Nat
  state1 : Nat
deriving DecidableEq

/-- Both atomics are initialized with `AtomicU64::new(0)` (lines 127-128). -/
def initialState : RngState := ⟨0, 0⟩

/-- Oracle for the four `SystemTime::now().duration_since(UNIX_EPOCH)` reads
that the seeding path may perform (two per `system_time_random` call).
Each read is `some` total-nanosecond duration, or `none` when the clock
reads before the epoch and the source's `.unwrap()` panics. -/
structure ClockReads where
  r1 : Option Nat
  r2 : Option Nat
  r3 : Option Nat
  r4 : Option Nat

/-- Embeds `system_time_random` (lines 154-165): the first clock read is
reduced with `as_micros` (total nanoseconds divided by 1000), the second
with `as_nanos`; both are `u128` values, xored. `none` models the panic of
`.unwrap()` on a pre-epoch clock reading. -/
def system_time_random (d1 d2 : Option Nat) : Option Nat :=
  match d1, d2 with
  | some a, some b => some (((a / 1000) % 2 ^ 128) ^^^ (b % 2 ^ 128))
  | _, _ => none

/-- Embeds the mixing sequence of `random_u64` (lines 139-151), run after
any seeding: `s1 = STATE0`, `s0 = STATE1`, store `STATE0 = s0`, mix `s1`
by the four shift-xor steps (`<<` wraps modulo `2^64` on u64), store
`STATE1 = s1`, and return `s0.wrapping_add(s1)`. -/
def xorshift_step (st : RngState) : Nat × RngState :=
  let s1a := st.state0
  let s0 := st.state1
  let s1b := s1a ^^^ ((s1a <<< 23) % 2 ^ 64)
  let s1c := s1b ^^^ (s1b >>> 17)
  let s1d := s1c ^^^ s0
  let s1e := s1d ^^^ (s0 >>> 26)
  ((s0 + s1e) % 2 ^ 64, ⟨s0, s1e⟩)

/-- Embeds `random_u64` (lines 124-152): if `STATE0` reads as zero, both
words are first reseeded from two `system_time_random` samples cast
`as u64`; then one mixing step runs. `none` models a panic inside the
clock reads on the seeding path. -/
def random_u64 (c : ClockReads) (st : RngState) : Option (Nat × RngState) :=
  if st.state0 = 0 then
    match system_time_random c.r1 c.r2, system_time_random c.r3 c.r4 with
    | some a, some b => some (xorshift_step ⟨a % 2 ^ 64, b % 2 ^ 64⟩)
    | _, _ => none
  else
    some (xorshift_step st)

/-- Embeds the Rust cast `x as i32` applied to a u64 value: two's-complement
reinterpretation of the low 32 bits. -/
def as_i32 (n : Nat) : Int :=
  if n % 2 ^ 32 < 2 ^ 31 then (n % 2 ^ 32 : Int) else (n % 2 ^ 32 : Int) - 2 ^ 32

/-- Embeds `i32::abs` under checked (debug-build) semantics: the only
overflow, hence the only panic, is at `i32::MIN`, which has no positive
32-bit representation. -/
def checked_abs_i32 (x : Int) : Option Int :=
  if x = -(2 ^ 31) then none else some (x.natAbs : Int)

/-- Embeds i32 subtraction under checked (debug-build) semantics: `none`
when the mathematical difference leaves the i32 range. -/
def checked_sub_i32 (a b : Int) : Option Int :=
  if -(2 ^ 31) ≤ a - b ∧ a - b < 2 ^ 31 then some (a - b) else none

/-- Embeds i32 addition under checked (debug-build) semantics. -/
def checked_add_i32 (a b : Int) : Option Int :=
  if -(2 ^ 31) ≤ a + b ∧ a + b < 2 ^ 31 then some (a + b) else none

/-- Embeds Rust's `%` on i32: truncated remainder (sign follows the
dividend, `Int.tmod`); panics on a zero divisor, and on the overflowing
case `i32::MIN % -1`. -/
def checked_rem_i32 (a b : Int) : Option Int :=
  if b = 0 ∨ (a = -(2 ^ 31) ∧ b = -1) then none else some (Int.tmod a b)

/-- Embeds `random_int_range` (lines 118-121) on a `Range<i32>` given as
`(start, stop)`: `difference = stop - start` is computed first (so an
overflowing subtraction faults before any draw), then one raw draw is
taken, cast `as i32`, passed through `abs`, reduced `% difference`, and
added to `start`. -/
def random_int_range (c : ClockReads) (start stop : Int) (st : RngState) :
    Option (Int × RngState) :=
  match checked_sub_i32 stop start with
  | none => none
  | some difference =>
    match random_u64 c st with
    | none => none
    | some (raw, st1) =>
      match checked_abs_i32 (as_i32 raw) with
      | none => none
      | some a =>
        match checked_rem_i32 a difference with
        | none => none
        | some m =>
          match checked_add_i32 start m with
          | none => none
          | some r => some (r, st1)

/-- Embeds `random_float` (lines 95-97): the raw draw shifted right by 11
bits, cast to `f64`, divided by `2^53`. The shifted value is below `2^53`,
so the `u64 -> f64` cast is exact, and division by the power of two `2^53`
is exact as well; the f64 computation is therefore modelled without loss
in `ℚ`. -/
def random_float (c : ClockReads) (st : RngState) : Option (ℚ × RngState) :=
  match random_u64 c st with
  | none => none
  | some (raw, st1) => some (((raw >>> 11 : Nat) : ℚ) / 2 ^ 53, st1)

/-- Oracle for standard input as seen by one `read_line` call: either the
remaining stream content (a closed or exhausted stream is the empty
content, yielding `Ok(0)` bytes at end of file), or a pending I/O error. -/
inductive StdinState
  | ioError
  | stream (s : String)

/-- The line-feed character terminating a line of input. -/
def newlineChar : Char := Char.ofNat 10

/-- Characters of one line, up to and including the first newline; at end
of input without a newline, whatever remains. -/
def takeLineAux : List Char → List Char
  | [] => []
  | c :: rest => if c = newlineChar then [c] else c :: takeLineAux rest

/-- What `std::io::Stdin::read_line` appends to the buffer when the stream
holds `s`: one line including its terminator, or nothing at end of file. -/
def read_line (s : String) : String := ⟨takeLineAux s.data⟩

/-- Embeds `input` (lines 43-47): the buffer starts empty, `read_line`
appends one line, `.unwrap()` panics (`none`) only when the underlying
read returns an `Err`; an end-of-file read succeeds with zero bytes. -/
def input (stdin : StdinState) : Option String :=
  match stdin with
  | .ioError => none
  | .stream s => some ((⟨[]⟩ : String) ++ read_line s)

/-- Fixed clock oracle used to instantiate witnesses: all four reads
succeed. -/
def cw : ClockReads := ⟨some 1000, some 5, some 2000, some 7⟩

/-- Clock oracle whose reads all fail, used to show draws from a seeded
state never consult the clock. -/
def cErr : ClockReads := ⟨none, none, none, none⟩

end SimpleStd

namespace SimpleStd

/-- Every successful raw draw is a u64 value: the returned word is below
`2^64` (the mixing step ends with a wrapping addition modulo `2^64`). -/
theorem random_u64_fst_lt (c : ClockReads) (st : RngState) (raw : Nat)
    (st1 : RngState) (h : random_u64 c st = some (raw, st1)) : raw < 2 ^ 64 := by
  have hx : ∀ s : RngState, (xorshift_step s).1 < 2 ^ 64 := by
    intro s
    exact Nat.mod_lt _ (by norm_num)
  unfold random_u64 at h
  split at h
  · split at h
    · rename_i a b heq1 heq2
      injection h with h
      have hb := hx ⟨a % 2 ^ 64, b % 2 ^ 64⟩
      rw [h] at hb
      exact hb
    · exact Option.noConfusion h
  · injection h with h
    have hb := hx st
    rw [h] at hb
    exact hb

/-- C2: on every call with `state0` nonzero, `random_u64` performs exactly
the xorshift128+ sequence of src/lib.rs lines 139-151: `s1 = STATE0`,
`s0 = STATE1`, store `STATE0 = s0`, mix `s1` by shift-xor steps 23, 17,
`s0`, and `s0 >> 26`, store `STATE1 = s1`, and return the wrapping sum
`s0 + s1` modulo `2^64`. -/
theorem random_u64_mixing_formula (c : ClockReads) (st : RngState)
    (h : st.state0 ≠ 0) :
    random_u64 c st =
      some (let s1a := st.state0
            let s0 := st.state1
            let s1b := s1a ^^^ ((s1a <<< 23) % 2 ^ 64)
            let s1c := s1b ^^^ (s1b >>> 17)
            let s1d := s1c ^^^ s0
            let s1e := s1d ^^^ (s0 >>> 26)
            ((s0 + s1e) % 2 ^ 64, ⟨s0, s1e⟩)) := by
  simp [random_u64, h, xorshift_step]

/-- Witness for C2 at the concrete state (1, 2): the clock (here one whose
reads would all fail) is never consulted and the draw is 8388677. -/
theorem random_u64_mixing_formula_witness :
    random_u64 cErr ⟨1, 2⟩ = some (8388677, ⟨2, 8388675⟩) :=
  (random_u64_mixing_formula cErr ⟨1, 2⟩ (by decide)).trans (by decide)

/-- C5: both state words start at zero; a call with `state0 = 0` assigns
each word a sample `now_micros XOR now_nanos` truncated to 64 bits (then
runs the mixing step); a call with `state0` nonzero does not reseed and
mutates the state only by the mixing step. -/
theorem random_u64_seeding :
    (initialState = ⟨0, 0⟩) ∧
    (∀ (st : RngState) (d1 d2 d3 d4 : Nat), st.state0 = 0 →
      random_u64 ⟨some d1, some d2, some d3, some d4⟩ st =
        some (xorshift_step
          ⟨(((d1 / 1000) % 2 ^ 128) ^^^ (d2 % 2 ^ 128)) % 2 ^ 64,
           (((d3 / 1000) % 2 ^ 128) ^^^ (d4 % 2 ^ 128)) % 2 ^ 64⟩)) ∧
    (∀ (c : ClockReads) (st : RngState), st.state0 ≠ 0 →
      random_u64 c st = some (xorshift_step st)) := by
  refine ⟨rfl, ?_, ?_⟩
  · intro st d1 d2 d3 d4 h
    simp [random_u64, h, system_time_random]
  · intro c st h
    simp [random_u64, h]

/-- Witness for C5: from the zero state with clock reads 1000/5 and 2000/7
the words are seeded to 1 XOR 5 = 4 and 2 XOR 7 = 5 and then mixed; from
the nonzero state (1, 2) no reseeding happens. -/
theorem random_u64_seeding_witness :
    random_u64 ⟨some 1000, some 5, some 2000, some 7⟩ ⟨0, 123⟩ =
      some (33554694, ⟨5, 33554689⟩) ∧
    random_u64 cw ⟨1, 2⟩ = some (8388677, ⟨2, 8388675⟩) :=
  ⟨(random_u64_seeding.2.1 ⟨0, 123⟩ 1000 5 2000 7 rfl).trans (by decide),
   (random_u64_seeding.2.2 cw ⟨1, 2⟩ (by decide)).trans (by decide)⟩

/-- C8: the raw draw is a deterministic function of the prior state: two
runs from equal states with `state0` nonzero return equal outputs and
equal successor states, whatever each run's clock would read. -/
theorem random_u64_deterministic (c1 c2 : ClockReads) (st1 st2 : RngState)
    (h0 : st1.state0 ≠ 0) (heq : st1 = st2) :
    random_u64 c1 st1 = random_u64 c2 st2 := by
  subst heq
  simp [random_u64, h0]

/-- Witness for C8: two runs from state (1, 2), one under the working
clock and one under the failing clock, agree. -/
theorem random_u64_deterministic_witness :
    random_u64 cw ⟨1, 2⟩ = random_u64 cErr ⟨1, 2⟩ :=
  random_u64_deterministic cw cErr ⟨1, 2⟩ ⟨1, 2⟩ (by decide) rfl

/-- C9: from any state with `state0` nonzero, `random_float` is total: it
returns a value and no failure branch (the clock unwraps of the seeding
path) is reachable. -/
theorem random_float_total (c : ClockReads) (st : RngState)
    (h : st.state0 ≠ 0) : (random_float c st).isSome = true := by
  simp [random_float, random_u64, h]

/-- Witness for C9: from state (1, 2), even the clock whose reads all fail
yields a float. -/
theorem random_float_total_witness : (random_float cErr ⟨1, 2⟩).isSome = true :=
  random_float_total cErr ⟨1, 2⟩ (by decide)

/-- C3: every returned float equals the raw 64-bit draw shifted right by
11 bits, converted to a float, divided by `2^53`; consequently it lies in
the interval from 0 inclusive to 1 exclusive. -/
theorem random_float_value_and_range (c : ClockReads) (st : RngState)
    (q : ℚ) (st1 : RngState) (h : random_float c st = some (q, st1)) :
    (∃ raw, random_u64 c st = some (raw, st1) ∧
      q = ((raw >>> 11 : Nat) : ℚ) / 2 ^ 53) ∧
    0 ≤ q ∧ q < 1 := by
  unfold random_float at h
  rcases hu : random_u64 c st with _ | ⟨raw, st2⟩
  · rw [hu] at h
    exact Option.noConfusion h
  · rw [hu] at h
    simp only [Option.some.injEq, Prod.mk.injEq] at h
    obtain ⟨hq, hst⟩ := h
    have hlt : ((raw >>> 11 : Nat) : ℚ) < 2 ^ 53 := by
      have hr : raw < 2 ^ 64 := random_u64_fst_lt c st raw st2 hu
      have hs : raw >>> 11 < 2 ^ 53 := by
        rw [Nat.shiftRight_eq_div_pow]
        rw [Nat.div_lt_iff_lt_mul (by norm_num)]
        calc raw < 2 ^ 64 := hr
        _ = 2 ^ 53 * 2 ^ 11 := by norm_num
      exact_mod_cast hs
    refine ⟨⟨raw, by rw [hst], hq.symm⟩, ?_, ?_⟩
    · rw [← hq]
      positivity
    · rw [← hq]
      rw [div_lt_one (by positivity)]
      exact hlt

/-- Witness for C3 at clock `cw` and state (1, 2): the draw is 8388677,
shifted right by 11 it is 4096, and 4096 / 2^53 lies in the unit
interval. -/
theorem random_float_value_and_range_witness :
    0 ≤ (4096 : ℚ) / 2 ^ 53 ∧ (4096 : ℚ) / 2 ^ 53 < 1 :=
  (random_float_value_and_range cw ⟨1, 2⟩ ((4096 : ℚ) / 2 ^ 53)
    ⟨2, 8388675⟩ (by
      unfold random_float
      rw [show random_u64 cw ⟨1, 2⟩ = some (8388677, ⟨2, 8388675⟩) from by decide]
      simp only [Nat.shiftRight_eq_div_pow]
      norm_num)).2

/-- C1 (amended): for every range with `stop > start` whose i32 difference
does not overflow, and every draw whose i32 truncation is not `i32::MIN`,
`random_int_range` returns exactly `start + (|trunc| % (stop - start))`,
which lies in the half-open range. -/
theorem random_int_range_in_range (c : ClockReads) (start stop : Int)
    (st : RngState) (raw : Nat) (st1 : RngState)
    (hu : random_u64 c st = some (raw, st1))
    (hlt : start < stop)
    (hstart : -(2 ^ 31) ≤ start) (hstop : stop < 2 ^ 31)
    (hfit : stop - start < 2 ^ 31)
    (hmin : as_i32 raw ≠ -(2 ^ 31)) :
    random_int_range c start stop st =
      some (start + Int.tmod ((as_i32 raw).natAbs : Int) (stop - start), st1) ∧
    start ≤ start + Int.tmod ((as_i32 raw).natAbs : Int) (stop - start) ∧
    start + Int.tmod ((as_i32 raw).natAbs : Int) (stop - start) < stop := by
  have hd0 : (0 : Int) < stop - start := by omega
  have ha0 : (0 : Int) ≤ ((as_i32 raw).natAbs : Int) := Int.natCast_nonneg _
  have hm0 : 0 ≤ Int.tmod ((as_i32 raw).natAbs : Int) (stop - start) :=
    Int.tmod_nonneg _ ha0
  have hmlt : Int.tmod ((as_i32 raw).natAbs : Int) (stop - start) < stop - start :=
    Int.tmod_lt_of_pos _ hd0
  have hsub : checked_sub_i32 stop start = some (stop - start) := by
    unfold checked_sub_i32
    rw [if_pos ⟨by omega, hfit⟩]
  have habs : checked_abs_i32 (as_i32 raw) = some ((as_i32 raw).natAbs : Int) := by
    unfold checked_abs_i32
    rw [if_neg hmin]
  have hrem : checked_rem_i32 ((as_i32 raw).natAbs : Int) (stop - start) =
      some (Int.tmod ((as_i32 raw).natAbs : Int) (stop - start)) := by
    unfold checked_rem_i32
    rw [if_neg]
    rintro (h1 | ⟨h1, h2⟩) <;> omega
  have hadd : checked_add_i32 start
      (Int.tmod ((as_i32 raw).natAbs : Int) (stop - start)) =
      some (start + Int.tmod ((as_i32 raw).natAbs : Int) (stop - start)) := by
    unfold checked_add_i32
    rw [if_pos ⟨by omega, by omega⟩]
  refine ⟨?_, by omega, by omega⟩
  unfold random_int_range
  simp only [hsub, hu, habs, hrem, hadd]

/-- Witness for C1 at range 0..10, clock `cw`, state (1, 2): the draw is
8388677, and the call returns 7 with 0 ≤ 7 < 10. -/
theorem random_int_range_in_range_witness :
    random_int_range cw 0 10 ⟨1, 2⟩ = some (7, ⟨2, 8388675⟩) ∧
    (0 : Int) ≤ 7 ∧ (7 : Int) < 10 := by
  have h := random_int_range_in_range cw 0 10 ⟨1, 2⟩ 8388677 ⟨2, 8388675⟩
    (by decide) (by norm_num) (by norm_num) (by norm_num) (by norm_num) (by decide)
  exact ⟨h.1.trans (by decide), by norm_num, by norm_num⟩

/-- Counterexample for C1 as stated: the range with start = -2^31 and
stop = 1 satisfies stop > start, yet the call returns no value at all
(the i32 subtraction stop - start overflows and faults). -/
theorem random_int_range_in_range_cx :
    (-(2 ^ 31) : Int) < 1 ∧
    random_int_range cw (-(2 ^ 31)) 1 ⟨1, 2⟩ = none := by decide

/-- C7: the subtraction `stop - start` is i32 arithmetic: whenever the
true difference is at least `2^31` (even though `stop > start` may hold),
the subtraction overflows and the call faults for every clock and state,
before any random draw is consumed. -/
theorem random_int_range_sub_overflow (start stop : Int)
    (h : 2 ^ 31 ≤ stop - start) :
    checked_sub_i32 stop start = none ∧
    ∀ (c : ClockReads) (st : RngState),
      random_int_range c start stop st = none := by
  have hs : checked_sub_i32 stop start = none := by
    unfold checked_sub_i32
    rw [if_neg]
    rintro ⟨h1, h2⟩
    omega
  refine ⟨hs, fun c st => ?_⟩
  unfold random_int_range
  simp only [hs]

/-- Witness for C7 at start = -2^31, stop = 1 (a range with stop > start
and true difference 2^31 + 1): the subtraction faults and the call
returns nothing, from an arbitrary state and failing clock. -/
theorem random_int_range_sub_overflow_witness :
    checked_sub_i32 1 (-(2 ^ 31)) = none ∧
    random_int_range cErr (-(2 ^ 31)) 1 ⟨3, 4⟩ = none := by
  have h := random_int_range_sub_overflow (-(2 ^ 31)) 1 (by norm_num)
  exact ⟨h.1, h.2 cErr ⟨3, 4⟩⟩

/-- C4 (amended): a call with `stop = start` always faults (modulo by
zero after the draw, or an earlier fault); but a call with `stop < start`
does not signal: whenever the intermediate arithmetic stays in the i32
range it silently returns `start + (|trunc| % (stop - start))`, a
crash-free value at least `start` and hence outside the empty range. -/
theorem random_int_range_empty_and_reversed :
    (∀ (c : ClockReads) (start : Int) (st : RngState),
      random_int_range c start start st = none) ∧
    (∀ (c : ClockReads) (start stop : Int) (st : RngState) (raw : Nat)
      (st1 : RngState),
      random_u64 c st = some (raw, st1) →
      stop < start →
      -(2 ^ 31) ≤ stop - start →
      as_i32 raw ≠ -(2 ^ 31) →
      -(2 ^ 31) ≤ start →
      start + Int.tmod ((as_i32 raw).natAbs : Int) (stop - start) < 2 ^ 31 →
      random_int_range c start stop st =
        some (start + Int.tmod ((as_i32 raw).natAbs : Int) (stop - start), st1) ∧
      start ≤ start + Int.tmod ((as_i32 raw).natAbs : Int) (stop - start)) := by
  constructor
  · intro c start st
    have hsub : checked_sub_i32 start start = some 0 := by
      unfold checked_sub_i32
      rw [if_pos ⟨by omega, by omega⟩]
      norm_num
    rcases hu : random_u64 c st with _ | ⟨raw, st1⟩
    · simp [random_int_range, hsub, hu]
    · rcases hab : checked_abs_i32 (as_i32 raw) with _ | a
      · simp [random_int_range, hsub, hu, hab]
      · simp [random_int_range, hsub, hu, hab, checked_rem_i32]
  · intro c start stop st raw st1 hu hlt hfit hmin hstart hadd31
    have ha0 : (0 : Int) ≤ ((as_i32 raw).natAbs : Int) := Int.natCast_nonneg _
    have hm0 : 0 ≤ Int.tmod ((as_i32 raw).natAbs : Int) (stop - start) :=
      Int.tmod_nonneg _ ha0
    have hsub : checked_sub_i32 stop start = some (stop - start) := by
      unfold checked_sub_i32
      rw [if_pos ⟨hfit, by omega⟩]
    have habs : checked_abs_i32 (as_i32 raw) = some ((as_i32 raw).natAbs : Int) := by
      unfold checked_abs_i32
      rw [if_neg hmin]
    have hrem : checked_rem_i32 ((as_i32 raw).natAbs : Int) (stop - start) =
        some (Int.tmod ((as_i32 raw).natAbs : Int) (stop - start)) := by
      unfold checked_rem_i32
      rw [if_neg]
      rintro (h1 | ⟨h1, h2⟩) <;> omega
    have hadd : checked_add_i32 start
        (Int.tmod ((as_i32 raw).natAbs : Int) (stop - start)) =
        some (start + Int.tmod ((as_i32 raw).natAbs : Int) (stop - start)) := by
      unfold checked_add_i32
      rw [if_pos ⟨by omega, hadd31⟩]
    refine ⟨?_, by omega⟩
    unfold random_int_range
    simp only [hsub, hu, habs, hrem, hadd]

/-- Witness for C4: the equal-bounds call with range 3..3 faults, while
the reversed range 5..0 silently returns 7, with 5 ≤ 7. -/
theorem random_int_range_empty_and_reversed_witness :
    random_int_range cw 3 3 ⟨1, 2⟩ = none ∧
    random_int_range cw 5 0 ⟨1, 2⟩ = some (7, ⟨2, 8388675⟩) ∧ (5 : Int) ≤ 7 := by
  have h2 := random_int_range_empty_and_reversed.2 cw 5 0 ⟨1, 2⟩ 8388677
    ⟨2, 8388675⟩ (by decide) (by norm_num) (by norm_num) (by decide)
    (by norm_num) (by decide)
  exact ⟨random_int_range_empty_and_reversed.1 cw 3 ⟨1, 2⟩,
    h2.1.trans (by decide), by norm_num⟩

/-- Counterexample for C4 as stated: with stop < start (range 5..0) the
call does not fail loudly: it silently returns the crash-free value 7,
which lies outside any contract for the empty range. -/
theorem random_int_range_reversed_cx :
    random_int_range cw 5 0 ⟨1, 2⟩ ≠ none ∧
    random_int_range cw 5 0 ⟨1, 2⟩ = some (7, ⟨2, 8388675⟩) := by decide

/-- C6: failing input for the unguarded absolute value. From the state
with state0 = 2^60 + 2^54 + 2^37 + 2^31 + 2^14 and state1 = 0 the raw
draw is exactly 2^31, whose i32 truncation is `i32::MIN`; the `abs` call
then overflows (a checked-arithmetic fault, the panic of a debug build)
and the whole call faults instead of being guarded or returning an
in-range value. -/
theorem random_int_range_abs_min_bug :
    random_u64 cw ⟨1170936042702782464, 0⟩ = some (2 ^ 31, ⟨0, 2 ^ 31⟩) ∧
    as_i32 (2 ^ 31) = -(2 ^ 31) ∧
    checked_abs_i32 (-(2 ^ 31)) = none ∧
    random_int_range cw 0 10 ⟨1170936042702782464, 0⟩ = none := by decide

/-- C10 (amended): `input` returns the line read from standard input
including its trailing line terminator; an I/O error propagates a fatal
error; but a closed stream (end of file) is not fatal: the read succeeds
with zero bytes and `input` returns the empty string. -/
theorem input_line_behavior :
    (input StdinState.ioError = none) ∧
    (∀ (l r : List Char), newlineChar ∉ l →
      input (StdinState.stream ⟨l ++ newlineChar :: r⟩) =
        some ⟨l ++ [newlineChar]⟩) ∧
    (input (StdinState.stream ⟨[]⟩) = some ⟨[]⟩) := by
  refine ⟨rfl, ?_, rfl⟩
  intro l r hl
  have hline : takeLineAux (l ++ newlineChar :: r) = l ++ [newlineChar] := by
    induction l with
    | nil => simp [takeLineAux]
    | cons c cs ih =>
      simp only [List.mem_cons, not_or] at hl
      have hc : ¬(c = newlineChar) := fun h => hl.1 h.symm
      have ihr := ih hl.2
      simp only [List.cons_append, takeLineAux, if_neg hc]
      exact congrArg (fun t => c :: t) ihr
  simp [input, read_line, hline]

/-- Witness for C10: reading the stream holding the characters h, i,
newline, x returns exactly h, i, newline — the line with its
terminator. -/
theorem input_line_behavior_witness :
    input (StdinState.stream ⟨['h', 'i', newlineChar, 'x']⟩) =
      some ⟨['h', 'i', newlineChar]⟩ :=
  input_line_behavior.2.1 ['h', 'i'] ['x'] (by decide)

/-- Counterexample for C10 as stated: a closed (end-of-file) stream does
not propagate a fatal error: `input` returns the empty string, a
recoverable result. -/
theorem input_eof_cx :
    input (StdinState.stream ⟨[]⟩) = some ⟨[]⟩ ∧
    input (StdinState.stream ⟨[]⟩) ≠ none := by decide

end SimpleStd
